import Mathlib

/-!
# pointers/examples/example1.1/main.c

```c
int main() {
    int x = 5;
    int *pointer_to_x = &x;
    printf("%p\n", pointer_to_x);
    return 0;
}
```

The program is embedded by explicit state passing.  Two things come from the
execution environment and not from the program text, and both are parameters:

* `ax`   : the address the runtime assigns to the local `x`;
* `fmtP` : the C library's rendering of a pointer value for `%p`
  (implementation-defined in C).

`ptrFmt` is one concrete `fmtP`: `0x` followed by lowercase hexadecimal digits.
-/

namespace Example11

/-! ## Machine state -/

/-- The part of the machine `main` touches: `int` cells by address, the local
`pointer_to_x` (`none` until its declaration has run) and the text written to
standard output so far. -/
structure State where
  mem : Nat → Option Int
  pointer_to_x : Option Nat
  stdout : String

/-- State on entry to `main`: nothing allocated, nothing printed. -/
def entry : State :=
  { mem := fun _ => none, pointer_to_x := none, stdout := "" }

/-- Reading the `int` cell a pointer value refers to (`*p`). -/
def deref (s : State) (p : Option Nat) : Option Int :=
  match p with
  | some a => s.mem a
  | none => none

/-! ## The C library call -/

/-- The characters `printf` produces for a format string and one pointer
argument: `%p` is replaced by the rendering of the argument, every other
character is copied. -/
def formatChars (fmtP : Nat → String) : List Char → Nat → List Char
  | [], _ => []
  | [c], _ => [c]
  | c :: d :: rest, p =>
    if c = '%' ∧ d = 'p' then (fmtP p).data ++ formatChars fmtP rest p
    else c :: formatChars fmtP (d :: rest) p

/-- The call `printf(format, p)`: appends the formatted text to standard output. -/
def printf (fmtP : Nat → String) (format : String) (p : Nat) (s : State) : State :=
  { s with stdout := s.stdout ++ String.mk (formatChars fmtP format.data p) }

/-! ## The statements of `main` -/

/-- Line 4, `int x = v;` with `x` placed at address `ax` (the source has `v = 5`). -/
def declX (ax : Nat) (v : Int) (s : State) : State :=
  { s with mem := fun a => if a = ax then some v else s.mem a }

/-- Line 5, `int *pointer_to_x = &x;`: `&x` evaluates to `ax`. -/
def declPointer (ax : Nat) (s : State) : State :=
  { s with pointer_to_x := some ax }

/-- Line 6, `printf("%p\n", pointer_to_x);`.  Reading `pointer_to_x` before it
holds a value has no defined result. -/
def printPointer (fmtP : Nat → String) (s : State) : Option State :=
  match s.pointer_to_x with
  | some p => some (printf fmtP "%p\n" p s)
  | none => none

/-- State after line 4. -/
def afterDeclX (ax : Nat) (v : Int) : State := declX ax v entry

/-- State after line 5: the first program point at which `pointer_to_x` is
initialised. -/
def afterDeclPointer (ax : Nat) (v : Int) : State := declPointer ax (afterDeclX ax v)

/-- State after line 6, which is also the state at `return 0;`. -/
def afterPrint (fmtP : Nat → String) (ax : Nat) (v : Int) : Option State :=
  printPointer fmtP (afterDeclPointer ax v)

/-- What a run of `main` leaves behind: the text on standard output and the
exit status. -/
structure Outcome where
  stdout : String
  status : Int

/-- The body of `main` with the initialiser of `x` as a parameter; line 7 is
`return 0;`. -/
def mainInit (fmtP : Nat → String) (ax : Nat) (v : Int) : Option Outcome :=
  match afterPrint fmtP ax v with
  | some s => some { stdout := s.stdout, status := 0 }
  | none => none

/-- The program: `main` as written, `x` initialised to 5. -/
def main (fmtP : Nat → String) (ax : Nat) : Option Outcome :=
  mainInit fmtP ax 5

/-- The program points of `main` from the initialisation of `pointer_to_x` up
to the return: after line 5 and after line 6. -/
def pointsAfterInit (fmtP : Nat → String) (ax : Nat) : List (Option State) :=
  [some (afterDeclPointer ax 5), afterPrint fmtP ax 5]

/-! ## A concrete `%p` -/

/-- The digit table `0123456789abcdef`. -/
def hexDigit (d : Nat) : Char :=
  "0123456789abcdef".data.getD d '0'

/-- The conversion loop `do *--buf = digits[n % 16]; while ((n /= 16) != 0);`
bounded by `fuel` iterations; digits are produced least significant first and
stored right to left. -/
def hexLoop : Nat → Nat → List Char → List Char
  | 0, _, acc => acc
  | fuel + 1, n, acc =>
    if n / 16 = 0 then hexDigit (n % 16) :: acc
    else hexLoop fuel (n / 16) (hexDigit (n % 16) :: acc)

/-- Lowercase hexadecimal digits of `n`, most significant first. -/
def hexDigits (n : Nat) : List Char := hexLoop (n + 1) n []

/-- Rendering of a pointer for `%p` in the GNU C library's convention: `0x`
followed by the lowercase hexadecimal digits of the address; the null pointer
is rendered `(nil)`. -/
def ptrFmt (a : Nat) : String :=
  if a = 0 then "(nil)" else String.mk ('0' :: 'x' :: hexDigits a)

/-- Position of a character in the digit table: the value of a digit. -/
def hexCharVal (c : Char) : Nat :=
  "0123456789abcdef".data.indexOf c

/-- The number a digit string denotes, most significant digit first. -/
def hexValue (ds : List Char) : Nat :=
  ds.foldl (fun v c => v * 16 + hexCharVal c) 0

/-- Hexadecimal digit characters, the class `[0-9a-fA-F]`. -/
def isHexChar (c : Char) : Bool :=
  ('0' ≤ c && c ≤ '9') || ('a' ≤ c && c ≤ 'f') || ('A' ≤ c && c ≤ 'F')

/-- The pattern `^0x[0-9a-fA-F]+$` on a line of text. -/
def matchesAddressFormat : List Char → Bool
  | '0' :: 'x' :: d :: ds => (d :: ds).all isHexChar
  | _ => false

/-! ## Shared lemmas -/

theorem formatChars_main (fmtP : Nat → String) (p : Nat) :
    formatChars fmtP "%p\n".data p = (fmtP p).data ++ ['\n'] := by
  simp [formatChars]

theorem afterPrint_eq (fmtP : Nat → String) (ax : Nat) (v : Int) :
    afterPrint fmtP ax v =
      some { mem := (afterDeclX ax v).mem, pointer_to_x := some ax,
             stdout := fmtP ax ++ "\n" } := by
  simp only [afterPrint, printPointer, afterDeclPointer, declPointer, printf,
    formatChars_main, afterDeclX, declX, entry]
  congr 2

theorem mainInit_eq (fmtP : Nat → String) (ax : Nat) (v : Int) :
    mainInit fmtP ax v = some { stdout := fmtP ax ++ "\n", status := 0 } := by
  simp only [mainInit, afterPrint_eq]

theorem main_eq (fmtP : Nat → String) (ax : Nat) :
    main fmtP ax = some { stdout := fmtP ax ++ "\n", status := 0 } :=
  mainInit_eq fmtP ax 5

/-! ## The hexadecimal conversion -/

theorem hexDigit_isHexChar (d : Nat) (h : d < 16) : isHexChar (hexDigit d) = true := by
  interval_cases d <;> decide

theorem hexCharVal_hexDigit (d : Nat) (h : d < 16) : hexCharVal (hexDigit d) = d := by
  interval_cases d <;> decide

theorem hexDigit_ne_newline (d : Nat) (h : d < 16) : hexDigit d ≠ '\n' := by
  interval_cases d <;> decide

theorem hexValue_snoc (ds : List Char) (c : Char) :
    hexValue (ds ++ [c]) = hexValue ds * 16 + hexCharVal c := by
  simp [hexValue, List.foldl_append]

/-- With enough fuel the loop puts in front of the accumulator a non-empty
string of hexadecimal digits that denotes the number converted. -/
theorem hexLoop_spec (fuel : Nat) :
    ∀ (n : Nat) (acc : List Char), n < fuel →
      ∃ ds, hexLoop fuel n acc = ds ++ acc ∧ ds ≠ [] ∧
        (∀ c ∈ ds, isHexChar c = true ∧ c ≠ '\n') ∧ hexValue ds = n := by
  induction fuel with
  | zero => intro n acc h; omega
  | succ fuel ih =>
    intro n acc h
    have hd : n % 16 < 16 := Nat.mod_lt _ (by decide)
    by_cases hq : n / 16 = 0
    · refine ⟨[hexDigit (n % 16)], by simp [hexLoop, hq], by simp, ?_, ?_⟩
      · intro c hc
        simp only [List.mem_singleton] at hc
        subst hc
        exact ⟨hexDigit_isHexChar _ hd, hexDigit_ne_newline _ hd⟩
      · have : hexValue [hexDigit (n % 16)] = hexCharVal (hexDigit (n % 16)) := by
          simp [hexValue]
        rw [this, hexCharVal_hexDigit _ hd]
        omega
    · have hlt : n / 16 < fuel := by omega
      obtain ⟨ds, hds, _, hall, hval⟩ := ih (n / 16) (hexDigit (n % 16) :: acc) hlt
      refine ⟨ds ++ [hexDigit (n % 16)], by simp [hexLoop, hq, hds], by simp, ?_, ?_⟩
      · intro c hc
        rcases List.mem_append.mp hc with hc | hc
        · exact hall c hc
        · simp only [List.mem_singleton] at hc
          subst hc
          exact ⟨hexDigit_isHexChar _ hd, hexDigit_ne_newline _ hd⟩
      · rw [hexValue_snoc, hval, hexCharVal_hexDigit _ hd]
        omega

theorem hexDigits_spec (n : Nat) :
    hexDigits n ≠ [] ∧ (∀ c ∈ hexDigits n, isHexChar c = true ∧ c ≠ '\n') ∧
      hexValue (hexDigits n) = n := by
  obtain ⟨ds, hds, hne, hall, hval⟩ := hexLoop_spec (n + 1) n [] (Nat.lt_succ_self n)
  have : hexDigits n = ds := by simpa [hexDigits] using hds
  rw [this]
  exact ⟨hne, hall, hval⟩

theorem hexDigits_injective (a b : Nat) (h : hexDigits a = hexDigits b) : a = b := by
  have ha := (hexDigits_spec a).2.2
  have hb := (hexDigits_spec b).2.2
  rw [h] at ha
  exact ha.symm.trans hb

theorem ptrFmt_of_ne_zero (a : Nat) (h : a ≠ 0) :
    ptrFmt a = String.mk ('0' :: 'x' :: hexDigits a) := by
  simp [ptrFmt, h]

theorem ptrFmt_injective (a b : Nat) (ha : a ≠ 0) (hb : b ≠ 0)
    (h : ptrFmt a = ptrFmt b) : a = b := by
  rw [ptrFmt_of_ne_zero a ha, ptrFmt_of_ne_zero b hb] at h
  apply hexDigits_injective
  have h2 := congrArg String.data h
  simpa using h2

theorem matchesAddressFormat_hexDigits (n : Nat) :
    matchesAddressFormat ('0' :: 'x' :: hexDigits n) = true := by
  obtain ⟨hne, hall, _⟩ := hexDigits_spec n
  cases hds : hexDigits n with
  | nil => exact absurd hds hne
  | cons d ds =>
    rw [hds] at hall
    simp only [matchesAddressFormat, List.all_eq_true]
    intro c hc
    exact (hall c hc).1

theorem append_newline_injective (s t : String) (h : s ++ "\n" = t ++ "\n") : s = t := by
  have h2 : (s ++ "\n").data = (t ++ "\n").data := by rw [h]
  simp only [String.data_append] at h2
  exact String.ext (List.append_cancel_right h2)

/-! ## Properties of `main` -/

/-- C1: whatever address `ax` the runtime gives `x` (and whatever the
platform's `%p` rendering `fmtP` is), `pointer_to_x` holds `ax` and `main`
writes to standard output exactly the rendering of `ax` followed by one
newline character, and nothing else. -/
theorem main_writes_address_line (fmtP : Nat → String) (ax : Nat) :
    (afterDeclPointer ax 5).pointer_to_x = some ax ∧
    ∃ o, main fmtP ax = some o ∧ o.stdout = fmtP ax ++ "\n" ∧
      o.stdout.data = (fmtP ax).data ++ ['\n'] :=
  ⟨rfl, _, main_eq fmtP ax, rfl, by simp⟩

/-- C2: for every address of `x`, `main` returns, its exit status is 0, and no
outcome of `main` carries a non-zero status. -/
theorem main_returns_zero (fmtP : Nat → String) (ax : Nat) :
    (∃ o, main fmtP ax = some o ∧ o.status = 0) ∧
    ¬ ∃ o, main fmtP ax = some o ∧ o.status ≠ 0 := by
  refine ⟨⟨_, main_eq fmtP ax, rfl⟩, ?_⟩
  rintro ⟨o, ho, hne⟩
  rw [main_eq] at ho
  cases ho
  exact hne rfl

/-- C3: when the rendering of the address of `x` contains no newline, the
output of `main` is exactly one line: it is non-empty, contains exactly one
newline character, and that newline is its last character. -/
theorem main_writes_one_line (fmtP : Nat → String) (ax : Nat)
    (h : '\n' ∉ (fmtP ax).data) :
    ∃ o, main fmtP ax = some o ∧ o.stdout ≠ "" ∧
      o.stdout.data.count '\n' = 1 ∧ o.stdout.data.getLast? = some '\n' := by
  refine ⟨_, main_eq fmtP ax, ?_, ?_, ?_⟩
  · intro hempty
    have := congrArg String.data hempty
    simp at this
  · simp [List.count_eq_zero_of_not_mem h]
  · simp

theorem main_writes_one_line_witness :
    '\n' ∉ (ptrFmt 0x7ffeeb1a2c3c).data ∧
    ∃ o, main ptrFmt 0x7ffeeb1a2c3c = some o ∧ o.stdout ≠ "" ∧
      o.stdout.data.count '\n' = 1 ∧ o.stdout.data.getLast? = some '\n' :=
  ⟨by decide, main_writes_one_line ptrFmt 0x7ffeeb1a2c3c (by decide)⟩

/-- C4: for every non-null address of `x`, with `%p` rendered as `0x` followed
by the lowercase hexadecimal digits of the address, the emitted text is a line
followed by a newline, and the line (the output without its trailing newline)
matches `^0x[0-9a-fA-F]+$`: it is `0x` followed by at least one character, all
of them hexadecimal digits. -/
theorem main_line_matches_address_format (ax : Nat) (h : ax ≠ 0) :
    ∃ o, main ptrFmt ax = some o ∧
      o.stdout.data = o.stdout.data.dropLast ++ ['\n'] ∧
      matchesAddressFormat o.stdout.data.dropLast = true ∧
      ∃ ds, o.stdout.data.dropLast = '0' :: 'x' :: ds ∧ ds ≠ [] ∧
        ∀ c ∈ ds, isHexChar c = true := by
  refine ⟨_, main_eq ptrFmt ax, ?_⟩
  have hline : (ptrFmt ax ++ "\n").data.dropLast = '0' :: 'x' :: hexDigits ax := by
    rw [ptrFmt_of_ne_zero ax h]
    have : ("\n" : String).data = ['\n'] := rfl
    simp only [String.data_append, this, List.dropLast_concat]
  simp only [hline]
  refine ⟨?_, matchesAddressFormat_hexDigits ax, hexDigits ax, rfl,
    (hexDigits_spec ax).1, fun c hc => ((hexDigits_spec ax).2.1 c hc).1⟩
  rw [ptrFmt_of_ne_zero ax h]
  rfl

theorem main_line_matches_address_format_witness :
    (0x7ffeeb1a2c3c : Nat) ≠ 0 ∧
    ∃ o, main ptrFmt 0x7ffeeb1a2c3c = some o ∧
      o.stdout.data = o.stdout.data.dropLast ++ ['\n'] ∧
      matchesAddressFormat o.stdout.data.dropLast = true ∧
      ∃ ds, o.stdout.data.dropLast = '0' :: 'x' :: ds ∧ ds ≠ [] ∧
        ∀ c ∈ ds, isHexChar c = true :=
  ⟨by decide, main_line_matches_address_format 0x7ffeeb1a2c3c (by decide)⟩

/-- C5: with `%p` rendered as `0x` and hexadecimal digits, the output of `main`
is not a constant: any two distinct non-null addresses of `x` give different
text, two addresses with different text exist, and no single literal string is
the output for every non-null address. -/
theorem main_output_injective :
    (∀ a b : Nat, a ≠ 0 → b ≠ 0 → a ≠ b →
      (main ptrFmt a).map Outcome.stdout ≠ (main ptrFmt b).map Outcome.stdout) ∧
    (∃ a b : Nat, a ≠ 0 ∧ b ≠ 0 ∧
      (main ptrFmt a).map Outcome.stdout ≠ (main ptrFmt b).map Outcome.stdout) ∧
    (∀ lit : String, ∃ a : Nat, a ≠ 0 ∧
      (main ptrFmt a).map Outcome.stdout ≠ some lit) := by
  have inj : ∀ a b : Nat, a ≠ 0 → b ≠ 0 → a ≠ b →
      (main ptrFmt a).map Outcome.stdout ≠ (main ptrFmt b).map Outcome.stdout := by
    intro a b ha hb hab heq
    simp only [main_eq, Option.map_some', Option.some.injEq] at heq
    exact hab (ptrFmt_injective a b ha hb (append_newline_injective _ _ heq))
  refine ⟨inj, ⟨1, 2, by decide, by decide, inj 1 2 (by decide) (by decide) (by decide)⟩, ?_⟩
  intro lit
  by_cases h1 : (main ptrFmt 1).map Outcome.stdout = some lit
  · refine ⟨2, by decide, ?_⟩
    intro h2
    exact inj 1 2 (by decide) (by decide) (by decide) (h1.trans h2.symm)
  · exact ⟨1, by decide, h1⟩

theorem main_output_injective_witness :
    (0x7ffeeb1a2c3c : Nat) ≠ 0 ∧ (0x7ffeeb1a2c40 : Nat) ≠ 0 ∧
    (0x7ffeeb1a2c3c : Nat) ≠ 0x7ffeeb1a2c40 ∧
    (main ptrFmt 0x7ffeeb1a2c3c).map Outcome.stdout ≠
      (main ptrFmt 0x7ffeeb1a2c40).map Outcome.stdout :=
  ⟨by decide, by decide, by decide,
    main_output_injective.1 0x7ffeeb1a2c3c 0x7ffeeb1a2c40 (by decide) (by decide) (by decide)⟩

/-- C6: `x` is initialised to 5, and at every program point of `main` from the
initialisation of `pointer_to_x` up to the return, `pointer_to_x` holds the
address of `x` and reading the cell it refers to yields the current value of
`x`, which is 5; neither the pointer initialisation nor the print step changes
`x` or `pointer_to_x`. -/
theorem main_pointer_refers_to_x (fmtP : Nat → String) (ax : Nat) :
    (afterDeclX ax 5).mem ax = some 5 ∧
    (∀ p ∈ pointsAfterInit fmtP ax, ∃ s, p = some s ∧
      s.pointer_to_x = some ax ∧
      deref s s.pointer_to_x = s.mem ax ∧ s.mem ax = some 5) ∧
    (afterDeclPointer ax 5).mem = (afterDeclX ax 5).mem ∧
    ∃ s, afterPrint fmtP ax 5 = some s ∧
      s.mem = (afterDeclPointer ax 5).mem ∧
      s.pointer_to_x = (afterDeclPointer ax 5).pointer_to_x := by
  have hx : (afterDeclX ax 5).mem ax = some 5 := by simp [afterDeclX, declX]
  refine ⟨hx, ?_, rfl, _, afterPrint_eq fmtP ax 5, rfl, rfl⟩
  intro p hp
  simp only [pointsAfterInit, List.mem_cons, List.mem_singleton, List.not_mem_nil,
    or_false] at hp
  rcases hp with hp | hp
  · exact ⟨_, hp, rfl, rfl, hx⟩
  · rw [afterPrint_eq] at hp
    exact ⟨_, hp, rfl, rfl, hx⟩

/-- C7: the output and the exit status of `main` do not depend on the value
stored in `x`: for a fixed address, initialising `x` with any integer `v`
instead of 5 gives the same outcome as `main`, the same output text and the
exit status 0. -/
theorem main_independent_of_x_value (fmtP : Nat → String) (ax : Nat) (v : Int) :
    mainInit fmtP ax v = main fmtP ax ∧
    (mainInit fmtP ax v).map Outcome.stdout = (main fmtP ax).map Outcome.stdout ∧
    (mainInit fmtP ax v).map Outcome.stdout = some (fmtP ax ++ "\n") ∧
    (mainInit fmtP ax v).map Outcome.status = some 0 := by
  simp [main_eq, mainInit_eq]

end Example11
